import Mathlib

/-!
Formal model of cotk's precision/recall metric engine
(`src/cotk/metric/precision_recall.py`), shallowly embedded in Lean 4.

Token sequences are lists of integers, scores are rationals (the final
cosine value of the embedding strategy lives in the reals because of the
square root).  The mutable aggregator of the Python class
`_PrecisionRecallMetric` is represented by an explicit state record, and
`forward` is a function from a state and a batch to either a new state or
an error carrying the state as it stood when the exception was raised
(Python mutates the object in place, so an error can leave a partially
updated state behind).
-/

/-- A sentence: an ordered sequence of integer token ids. -/
abbrev Sent := List Int

/-- The sentences of one instance (one context's references or candidates). -/
abbrev Inst := List Sent

/-- A Python value passed for one of the two batch collections: either an
acceptable sequence (`list` / `numpy.ndarray`), or a value of any other type
(rejected by the `isinstance` checks in `forward`). -/
inductive PyObj where
  | seq : List Inst → PyObj
  | other : PyObj
deriving DecidableEq

/-- The collaborator interface consumed by the metric
(`self.dataloader` in the source): trimming, id-to-token conversion and the
unknown-token id. -/
structure Dataloader where
  trim_in_ids : Sent → Sent
  unk_id : Int
  convert_ids_to_tokens : Sent → List String

/-- One item fed to the ordered configuration hash
(`_hash_ordered_data` receives ints, strings, and (word, embedding) pairs). -/
inductive HashItem where
  | int : Int → HashItem
  | str : String → HashItem
  | pair : String → List ℚ → HashItem
deriving DecidableEq

/-- The mutable state of `_PrecisionRecallMetric`: the two running lists of
per-instance contributions, the order-insensitive accumulator over reference
sentences (`_hash_unordered_list`) and the order-sensitive configuration data
(`_hash_ordered_data`). -/
structure MetricState where
  prec_list : List ℚ
  rec_list : List ℚ
  unorderedHash : Multiset Sent
  orderedHash : List HashItem
deriving DecidableEq

/-- The exceptions `forward` can raise. -/
inductive FwdError where
  | typeErr
  | batchNumErr
  | genNumErr
  | emptyReduce
deriving DecidableEq

/-- Maximum of a list of rationals; `np.max` of a non-empty vector.
The value on `[]` is irrelevant: `numpy` raises on empty reductions and the
callers guard that case. -/
def listMax : List ℚ → ℚ
  | [] => 0
  | [x] => x
  | x :: y :: t => max x (listMax (y :: t))

/-- Column-wise maximum of a matrix given as a list of rows:
`np.max(matrix, 0)` for a non-empty matrix. -/
def colMax : List (List ℚ) → List ℚ
  | [] => []
  | [r] => r
  | r :: s :: t => List.zipWith max r (colMax (s :: t))

/-- The score matrix of one instance: row `i`, column `j` holds
`score(gen[j], reference[i])`, as filled by the double loop in `forward`. -/
def scoreMatrix (score : Sent → Sent → ℚ) (reference gen : Inst) : List (List ℚ) :=
  reference.map (fun single_ref => gen.map (fun single_gen => score single_gen single_ref))

/-- The per-instance precision contribution appended by `forward`:
`float(np.sum(np.max(matrix, 0))) / len(gen)`. -/
def instPrec (score : Sent → Sent → ℚ) (reference gen : Inst) : ℚ :=
  (colMax (scoreMatrix score reference gen)).sum / (gen.length : ℚ)

/-- The per-instance recall contribution appended by `forward`:
`float(np.sum(np.max(matrix, 1))) / len(reference)`. -/
def instRec (score : Sent → Sent → ℚ) (reference gen : Inst) : ℚ :=
  ((scoreMatrix score reference gen).map listMax).sum / (reference.length : ℚ)

/-- The instance loop of `forward`.  An instance with zero references makes
`np.max(matrix, 0)` raise on a zero-size reduction; a zero-size candidate set
makes the division by `len(gen)` raise.  Either error carries the state as
mutated so far (earlier instances already appended). -/
def processInsts (score : Sent → Sent → ℚ) :
    MetricState → List (Inst × Inst) → Except (FwdError × MetricState) MetricState
  | s, [] => .ok s
  | s, (reference, gen) :: rest =>
    if reference.isEmpty then .error (.emptyReduce, s)
    else if gen.isEmpty then .error (.emptyReduce, s)
    else processInsts score
      { s with prec_list := s.prec_list ++ [instPrec score reference gen],
               rec_list := s.rec_list ++ [instRec score reference gen] } rest

/-- Reference construction in `forward`:
`[[self.dataloader.trim_in_ids(cand[1:]) for cand in inst] for inst in candidate_allvocabs]`.
Note the `cand[1:]`: the first token of every reference sentence is dropped
before trimming. -/
def buildReferences (dl : Dataloader) (ca : List Inst) : List Inst :=
  ca.map (fun inst => inst.map (fun cand => dl.trim_in_ids (cand.drop 1)))

/-- Candidate construction in `forward`:
`[[self.dataloader.trim_in_ids(cand) for cand in inst] for inst in multiple_gen]`. -/
def buildGens (dl : Dataloader) (mg : List Inst) : List Inst :=
  mg.map (fun inst => inst.map (fun cand => dl.trim_in_ids cand))

/-- `_PrecisionRecallMetric.forward`, parametrised (as the source is, through
dynamic dispatch) by the scoring strategy `score`.  Validation errors are
raised before any mutation, the reference hash is folded in before the
instance loop runs. -/
def forward (dl : Dataloader) (generated_num_per_context : Nat)
    (score : Sent → Sent → ℚ) (s : MetricState)
    (candidate_allvocabs multiple_gen : PyObj) :
    Except (FwdError × MetricState) MetricState :=
  match candidate_allvocabs, multiple_gen with
  | .other, _ => .error (.typeErr, s)
  | _, .other => .error (.typeErr, s)
  | .seq ca, .seq mg =>
    let references := buildReferences dl ca
    let gens := buildGens dl mg
    if references.length ≠ gens.length then .error (.batchNumErr, s)
    else if ¬ (gens.all (fun line => line.length = generated_num_per_context)) then
      .error (.genNumErr, s)
    else
      processInsts score
        { s with unorderedHash := s.unorderedHash + (references.flatten : Multiset Sent) }
        (references.zip gens)

/-- Modelled from the spec: the fingerprint (`MetricBase._hashvalue`, not under
`src/`) is "the combination of the configuration hash and the running
reference-data hash"; the order-insensitive part is modelled by the multiset of
hashed sentences, the order-sensitive part by the configuration list itself. -/
def hashvalue (s : MetricState) : List HashItem × Multiset Sent :=
  (s.orderedHash, s.unorderedHash)

/-- `np.average` of a list: sum divided by length. -/
def npAverage (l : List ℚ) : ℚ := l.sum / (l.length : ℚ)

/-- The result dictionary of `close`: three entries, each keyed with the
strategy prefix `res_prefix`. -/
structure CloseRes where
  precKey : String
  precVal : ℚ
  recKey : String
  recVal : ℚ
  hashKey : String
  hashVal : List HashItem × Multiset Sent
deriving DecidableEq

/-- `_PrecisionRecallMetric.close`.  It raises when the running lists are
empty and otherwise reports the averages and the fingerprint; it does not
clear any accumulator, so the state it leaves behind is the state it was
called with. -/
def close (pfx : String) (s : MetricState) :
    Except String (CloseRes × MetricState) :=
  if s.prec_list = [] ∨ s.rec_list = [] then
    .error "The metric has not been forwarded data correctly."
  else
    .ok ({ precKey := pfx ++ " precision", precVal := npAverage s.prec_list,
           recKey := pfx ++ " recall", recVal := npAverage s.rec_list,
           hashKey := pfx ++ " hashvalue", hashVal := hashvalue s }, s)

/-- A fresh aggregator state with a given configuration hash. -/
def initState (cfg : List HashItem) : MetricState :=
  { prec_list := [], rec_list := [], unorderedHash := 0, orderedHash := cfg }

/-- The BLEU weights `[1 / ngram] * ngram`. -/
def bleuWeights (ngram : Nat) : List ℚ := List.replicate ngram (1 / (ngram : ℚ))

/-- State built by `BleuPrecisionRecallMetric.__init__`:
`self._hash_ordered_data([ngram, generated_num_per_context])`. -/
def bleuInitState (ngram generated_num_per_context : Nat) : MetricState :=
  initState [HashItem.int ngram, HashItem.int generated_num_per_context]

/-- `res_prefix` of the BLEU strategy: `'BLEU-{}'.format(ngram)`. -/
def bleuResPfx (ngram : Nat) : String := "BLEU-" ++ toString ngram

/-- `BleuPrecisionRecallMetric._replace_unk` with its default target `-1`. -/
def replace_unk (unk_id : Int) (target : Int) (l : Sent) : Sent :=
  l.map (fun ele => if ele = unk_id then target else ele)

/-- `BleuPrecisionRecallMetric._score`, with the external n-gram primitive
`sentence_bleu` abstracted as `prim` (per the spec it is an external
algorithmic primitive; only its integration is in scope): the candidate has
its unknown tokens replaced by `-1`, the reference is passed through
unchanged. -/
def bleuScoreWith (prim : List Sent → Sent → List ℚ → ℚ) (dl : Dataloader)
    (ngram : Nat) (gen reference : Sent) : ℚ :=
  prim [reference] (replace_unk dl.unk_id (-1) gen) (bleuWeights ngram)

/-- The contiguous subsequences of length `n` of a sentence (the n-grams that
an n-gram overlap score counts). -/
def ngrams (n : Nat) (l : Sent) : List Sent :=
  (List.range (l.length + 1 - n)).map (fun i => (l.drop i).take n)

/-- A word-to-embedding table, in insertion order (a Python `dict`). -/
abbrev Word2Vec := List (String × List ℚ)

/-- The constructor validation of `EmbSimilarityPrecisionRecallMetric`:
`np.array(list(word2vec.values())).shape` must have length 2 (uniform vector
lengths) with a non-zero second component, unless the table is empty. -/
def word2vecCheck : Word2Vec → Bool
  | [] => true
  | (_, v) :: rest => rest.all (fun p => p.2.length = v.length) && ¬ v.length = 0

/-- State and `res_prefix` built by `EmbSimilarityPrecisionRecallMetric.__init__`:
validation of the table and the mode, then
`self._hash_ordered_data([mode, generated_num_per_context] + [(word, list(emb)) ...])`. -/
def embInit (word2vec : Word2Vec) (mode : String)
    (generated_num_per_context : Nat) : Except String (MetricState × String) :=
  if ¬ word2vecCheck word2vec then
    .error "word embeddings have inconsistent embedding size or are empty"
  else if ¬ (mode = "avg" ∨ mode = "extrema") then
    .error "mode should be avg or extrema."
  else
    .ok (initState ([HashItem.str mode, HashItem.int generated_num_per_context] ++
           word2vec.map (fun p => HashItem.pair p.1 p.2)), mode ++ "-bow")

/-- Lookup of a word in the embedding table (`word in self.word2vec`). -/
def lookupVec (w2v : Word2Vec) (w : String) : Option (List ℚ) :=
  (w2v.find? (fun p => p.1 = w)).map (fun p => p.2)

/-- The vectors collected for one sentence in `EmbSimilarityPrecisionRecallMetric._score`:
convert ids to tokens, keep the embeddings of the tokens present in the table. -/
def sentVecs (dl : Dataloader) (w2v : Word2Vec) (sent : Sent) : List (List ℚ) :=
  (dl.convert_ids_to_tokens sent).filterMap (lookupVec w2v)

/-- Component-wise combination of a non-empty list of vectors. -/
def vecZip (f : ℚ → ℚ → ℚ) : List (List ℚ) → List ℚ
  | [] => []
  | [v] => v
  | v :: w :: t => List.zipWith f v (vecZip f (w :: t))

/-- `np.average(vs, 0)`: component-wise mean. -/
def avgPool (vs : List (List ℚ)) : List ℚ :=
  (vecZip (· + ·) vs).map (fun x => x / (vs.length : ℚ))

/-- `np.max(vs, 0)`: component-wise maximum. -/
def maxPool (vs : List (List ℚ)) : List ℚ := vecZip max vs

/-- The pooling dispatch of `_score`: `avg` averages, anything else (only
`extrema` passes construction) takes the maximum. -/
def pool (mode : String) (vs : List (List ℚ)) : List ℚ :=
  if mode = "avg" then avgPool vs else maxPool vs

/-- Dot product of two vectors: `np.sum(a * b)`. -/
def dotQ (a b : List ℚ) : ℚ := (List.zipWith (· * ·) a b).sum

/-- `EmbSimilarityPrecisionRecallMetric._score`.  If either sentence yields no
usable vectors the score is `0`.  Otherwise the source computes
`cos = np.sum(g*r) / np.sqrt(np.sum(g*g) * np.sum(r*r))` and returns
`(cos+1)/2`; when the denominator is zero (a pooled vector of zero norm)
the float division is `0/0`, i.e. `NaN`, modelled here as `none`. -/
noncomputable def embScore (dl : Dataloader) (w2v : Word2Vec) (mode : String)
    (gen reference : Sent) : Option ℝ :=
  let gen_vec := sentVecs dl w2v gen
  let ref_vec := sentVecs dl w2v reference
  if gen_vec = [] ∨ ref_vec = [] then some 0
  else
    let gen_embed := pool mode gen_vec
    let ref_embed := pool mode ref_vec
    if dotQ gen_embed gen_embed * dotQ ref_embed ref_embed = 0 then none
    else some
      ((((dotQ gen_embed ref_embed : ℚ) : ℝ) /
          Real.sqrt (((dotQ gen_embed gen_embed * dotQ ref_embed ref_embed : ℚ) : ℝ)) + 1) / 2)

/-- Repeated application of `forward`; `none` as soon as a call raises. -/
def runAll (dl : Dataloader) (generated_num_per_context : Nat)
    (score : Sent → Sent → ℚ) :
    MetricState → List (PyObj × PyObj) → Option MetricState
  | s, [] => some s
  | s, d :: rest =>
    match forward dl generated_num_per_context score s d.1 d.2 with
    | .ok s' => runAll dl generated_num_per_context score s' rest
    | .error _ => none

/-- The multiset of raw (untrimmed) reference sentences of a run. -/
def rawRefs : List (PyObj × PyObj) → Multiset Sent
  | [] => 0
  | (PyObj.seq ca, _) :: rest => (ca.flatten : Multiset Sent) + rawRefs rest
  | (PyObj.other, _) :: rest => rawRefs rest

/-! ### List maxima and sums, index-wise -/

lemma le_listMax : ∀ (l : List ℚ) (a : ℚ), a ∈ l → a ≤ listMax l
  | [x], a, h => by
    simp only [List.mem_singleton] at h
    simp [listMax, h]
  | x :: y :: t, a, h => by
    rcases List.mem_cons.mp h with rfl | h'
    · simp [listMax]
    · exact le_trans (le_listMax (y :: t) a h') (by simp [listMax])

lemma listMax_mem : ∀ (l : List ℚ), l ≠ [] → listMax l ∈ l
  | [x], _ => by simp [listMax]
  | x :: y :: t, _ => by
    have ih := listMax_mem (y :: t) (by simp)
    rcases max_choice x (listMax (y :: t)) with h | h <;>
      simp only [listMax, h] <;> simp [ih]

lemma listMax_eq_sup' (l : List ℚ) (h : l ≠ []) :
    listMax l = (Finset.range l.length).sup'
      (Finset.nonempty_range_iff.mpr (List.length_pos.mpr h).ne')
      (fun i => l.getD i 0) := by
  apply le_antisymm
  · obtain ⟨n, hn, hget⟩ := List.mem_iff_getElem.mp (listMax_mem l h)
    have : listMax l = l.getD n 0 := by rw [List.getD_eq_getElem _ _ hn, hget]
    rw [this]
    exact Finset.le_sup' (fun i => l.getD i 0) (Finset.mem_range.mpr hn)
  · apply Finset.sup'_le
    intro i hi
    rw [List.getD_eq_getElem _ _ (Finset.mem_range.mp hi)]
    exact le_listMax _ _ (List.getElem_mem _)

lemma colMax_length : ∀ (m : List (List ℚ)) (C : Nat), m ≠ [] →
    (∀ row ∈ m, row.length = C) → (colMax m).length = C
  | [r], C, _, hrow => by simpa [colMax] using hrow r (by simp)
  | r :: s :: t, C, _, hrow => by
    have ih := colMax_length (s :: t) C (by simp)
      (fun row hr => hrow row (List.mem_cons_of_mem _ hr))
    have hr : r.length = C := hrow r (by simp)
    simp [colMax, List.length_zipWith, ih, hr]

lemma colMax_getD : ∀ (m : List (List ℚ)) (C : Nat), m ≠ [] →
    (∀ row ∈ m, row.length = C) → ∀ j, j < C →
    (colMax m).getD j 0 = listMax (m.map (fun row => row.getD j 0))
  | [r], _C, _, _hrow, j, _hj => by simp [colMax, listMax]
  | r :: s :: t, C, _, hrow, j, hj => by
    have htail : ∀ row ∈ s :: t, row.length = C :=
      fun row hr => hrow row (List.mem_cons_of_mem _ hr)
    have ih := colMax_getD (s :: t) C (by simp) htail j hj
    have hlen1 : j < r.length := by rw [hrow r (by simp)]; exact hj
    have hlen2 : j < (colMax (s :: t)).length := by
      rw [colMax_length (s :: t) C (by simp) htail]; exact hj
    have hlen : j < (List.zipWith max r (colMax (s :: t))).length := by
      rw [List.length_zipWith]; exact lt_min hlen1 hlen2
    show (List.zipWith max r (colMax (s :: t))).getD j 0 = _
    rw [List.getD_eq_getElem _ _ hlen, List.getElem_zipWith,
      ← List.getD_eq_getElem r 0 hlen1, ← List.getD_eq_getElem _ 0 hlen2, ih]
    simp [listMax]

lemma list_sum_getD : ∀ (l : List ℚ), l.sum = ∑ i ∈ Finset.range l.length, l.getD i 0
  | [] => by simp
  | x :: xs => by
    rw [List.sum_cons, list_sum_getD xs, List.length_cons, Finset.sum_range_succ']
    simp [List.getD_cons_succ, List.getD_cons_zero, add_comm]

lemma getD_map_getD (m : List (List ℚ)) (f : List ℚ → ℚ) (i : Nat) (hi : i < m.length) :
    (m.map f).getD i 0 = f (m.getD i []) := by
  have h' : i < (m.map f).length := by simpa using hi
  rw [List.getD_eq_getElem _ _ h', List.getElem_map, List.getD_eq_getElem _ _ hi]

lemma scoreMatrix_row (score : Sent → Sent → ℚ) (reference gen : Inst)
    (i : Nat) (hi : i < reference.length) :
    (scoreMatrix score reference gen).getD i [] =
      gen.map (fun g => score g (reference.getD i [])) := by
  have h' : i < (scoreMatrix score reference gen).length := by
    simpa [scoreMatrix] using hi
  rw [List.getD_eq_getElem _ _ h']
  show (reference.map _)[i] = _
  rw [List.getElem_map, List.getD_eq_getElem _ _ hi]

lemma scoreMatrix_rows_len (score : Sent → Sent → ℚ) (reference gen : Inst) :
    ∀ row ∈ scoreMatrix score reference gen, row.length = gen.length := by
  intro row hr
  simp only [scoreMatrix, List.mem_map] at hr
  obtain ⟨r, _, rfl⟩ := hr
  simp

lemma getD_map_score (gen : Inst) (r : Sent) (score : Sent → Sent → ℚ)
    (j : Nat) (hj : j < gen.length) :
    (gen.map (fun g => score g r)).getD j 0 = score (gen.getD j []) r := by
  have h' : j < (gen.map fun g => score g r).length := by simpa using hj
  rw [List.getD_eq_getElem _ _ h', List.getElem_map, List.getD_eq_getElem _ _ hj]

/-- C1.  For an instance with `R = len(reference) > 0` references and
`C = len(gen) > 0` candidates, the per-instance precision contribution that
`forward` appends is `(sum over j of max over i of matrix[i][j]) / C`, and the
recall contribution is `(sum over i of max over j of matrix[i][j]) / R`, where
`matrix[i][j] = score(gen[j], reference[i])`. -/
theorem spec_C1 (score : Sent → Sent → ℚ) (reference gen : Inst)
    (hR : reference ≠ []) (hC : gen ≠ []) :
    instPrec score reference gen =
      (∑ j ∈ Finset.range gen.length,
        (Finset.range reference.length).sup'
          (Finset.nonempty_range_iff.mpr (List.length_pos.mpr hR).ne')
          (fun i => score (gen.getD j []) (reference.getD i []))) / (gen.length : ℚ) ∧
    instRec score reference gen =
      (∑ i ∈ Finset.range reference.length,
        (Finset.range gen.length).sup'
          (Finset.nonempty_range_iff.mpr (List.length_pos.mpr hC).ne')
          (fun j => score (gen.getD j []) (reference.getD i []))) / (reference.length : ℚ) := by
  have hM : scoreMatrix score reference gen ≠ [] := by
    simp [scoreMatrix, List.map_eq_nil_iff, hR]
  have hrows := scoreMatrix_rows_len score reference gen
  have hMlen : (scoreMatrix score reference gen).length = reference.length := by
    simp [scoreMatrix]
  constructor
  · unfold instPrec
    rw [list_sum_getD, colMax_length _ gen.length hM hrows]
    congr 1
    apply Finset.sum_congr rfl
    intro j hj
    have hj' := Finset.mem_range.mp hj
    rw [colMax_getD _ gen.length hM hrows j hj']
    have hmapne : (scoreMatrix score reference gen).map (fun row => row.getD j 0) ≠ [] := by
      simp [List.map_eq_nil_iff, hM]
    rw [listMax_eq_sup' _ hmapne]
    apply Finset.sup'_congr
    · congr 1
      simp [hMlen]
    · intro i hi
      have hi' : i < reference.length := by
        have := Finset.mem_range.mp hi
        simpa [hMlen] using this
      rw [getD_map_getD _ _ i (by simpa [hMlen] using hi'),
        scoreMatrix_row score reference gen i hi', getD_map_score gen _ score j hj']
  · unfold instRec
    rw [list_sum_getD]
    have hlen : ((scoreMatrix score reference gen).map listMax).length = reference.length := by
      simpa using hMlen
    rw [hlen]
    congr 1
    apply Finset.sum_congr rfl
    intro i hi
    have hi' := Finset.mem_range.mp hi
    rw [getD_map_getD _ listMax i (by simpa [hMlen] using hi'),
      scoreMatrix_row score reference gen i hi']
    have hmapne : gen.map (fun g => score g (reference.getD i [])) ≠ [] := by
      simp [List.map_eq_nil_iff, hC]
    rw [listMax_eq_sup' _ hmapne]
    apply Finset.sup'_congr
    · congr 1
      simp
    · intro j hj
      have hj' : j < gen.length := by
        have := Finset.mem_range.mp hj
        simpa using this
      rw [getD_map_score gen _ score j hj']

/-! ### State evolution of the instance loop and of `forward` -/

/-- The aggregator state left behind by a call, whether it returned or raised
(Python mutates the metric object in place). -/
def resState : Except (FwdError × MetricState) MetricState → MetricState
  | .ok s => s
  | .error (_, s) => s

lemma forward_seq (dl : Dataloader) (genNum : Nat) (score : Sent → Sent → ℚ)
    (s : MetricState) (ca mg : List Inst) :
    forward dl genNum score s (.seq ca) (.seq mg) =
      (if (buildReferences dl ca).length ≠ (buildGens dl mg).length then
        .error (.batchNumErr, s)
      else if ¬ ((buildGens dl mg).all (fun line => line.length = genNum)) then
        .error (.genNumErr, s)
      else
        processInsts score
          { s with unorderedHash :=
              s.unorderedHash + ((buildReferences dl ca).flatten : Multiset Sent) }
          ((buildReferences dl ca).zip (buildGens dl mg))) := rfl

lemma processInsts_extends (score : Sent → Sent → ℚ) :
    ∀ (pairs : List (Inst × Inst)) (s : MetricState),
    ∃ ps rs, ps.length = rs.length ∧
      (resState (processInsts score s pairs)).prec_list = s.prec_list ++ ps ∧
      (resState (processInsts score s pairs)).rec_list = s.rec_list ++ rs ∧
      (resState (processInsts score s pairs)).unorderedHash = s.unorderedHash ∧
      (resState (processInsts score s pairs)).orderedHash = s.orderedHash
  | [], s => ⟨[], [], rfl, by simp [processInsts, resState], by simp [processInsts, resState],
      rfl, rfl⟩
  | (reference, gen) :: rest, s => by
    by_cases h1 : reference.isEmpty
    · exact ⟨[], [], rfl, by simp [processInsts, h1, resState],
        by simp [processInsts, h1, resState], by simp [processInsts, h1, resState],
        by simp [processInsts, h1, resState]⟩
    · by_cases h2 : gen.isEmpty
      · exact ⟨[], [], rfl, by simp [processInsts, h1, h2, resState],
          by simp [processInsts, h1, h2, resState], by simp [processInsts, h1, h2, resState],
          by simp [processInsts, h1, h2, resState]⟩
      · obtain ⟨ps, rs, hlen, hp, hr, hu, ho⟩ := processInsts_extends score rest
          { s with prec_list := s.prec_list ++ [instPrec score reference gen],
                   rec_list := s.rec_list ++ [instRec score reference gen] }
        refine ⟨instPrec score reference gen :: ps, instRec score reference gen :: rs,
          by simp [hlen], ?_, ?_, ?_, ?_⟩ <;>
          simp only [processInsts, h1, h2, if_false, Bool.false_eq_true, ite_false] at * <;>
          simp [hp, hr, hu, ho]

lemma processInsts_ok (score : Sent → Sent → ℚ) :
    ∀ (pairs : List (Inst × Inst)) (s s' : MetricState),
    processInsts score s pairs = .ok s' →
    s'.prec_list.length = s.prec_list.length + pairs.length ∧
    s'.rec_list.length = s.rec_list.length + pairs.length ∧
    s'.unorderedHash = s.unorderedHash ∧ s'.orderedHash = s.orderedHash
  | [], s, s', h => by
    simp only [processInsts] at h
    cases h
    simp
  | (reference, gen) :: rest, s, s', h => by
    by_cases h1 : reference.isEmpty
    · simp [processInsts, h1] at h
    · by_cases h2 : gen.isEmpty
      · simp [processInsts, h1, h2] at h
      · simp only [processInsts, h1, h2, Bool.false_eq_true, if_false, ite_false] at h
        obtain ⟨hp, hr, hu, ho⟩ := processInsts_ok score rest _ s' h
        refine ⟨?_, ?_, by simpa using hu, by simpa using ho⟩ <;>
          simp only [hp, hr] <;> simp [List.length_cons] <;> omega

lemma processInsts_stops (score : Sent → Sent → ℚ) :
    ∀ (pairs : List (Inst × Inst)) (s : MetricState),
    (∀ pr ∈ pairs, pr.2 ≠ []) → (∃ pr ∈ pairs, pr.1 = []) →
    ∃ s', processInsts score s pairs = .error (.emptyReduce, s') ∧
      s'.prec_list = s.prec_list ++
        ((pairs.takeWhile (fun pr => !pr.1.isEmpty)).map
          (fun pr => instPrec score pr.1 pr.2)) ∧
      s'.rec_list = s.rec_list ++
        ((pairs.takeWhile (fun pr => !pr.1.isEmpty)).map
          (fun pr => instRec score pr.1 pr.2)) ∧
      s'.unorderedHash = s.unorderedHash ∧ s'.orderedHash = s.orderedHash
  | [], _s, _hg, he => by simp at he
  | (reference, gen) :: rest, s, hg, he => by
    by_cases h1 : reference.isEmpty
    · refine ⟨s, ?_, ?_, ?_, rfl, rfl⟩ <;> simp [processInsts, h1]
    · have hgen : ¬ gen.isEmpty := by
        have := hg (reference, gen) (by simp)
        simpa [List.isEmpty_iff] using this
      have hrest : ∃ pr ∈ rest, pr.1 = [] := by
        rcases he with ⟨pr, hpr, hpr1⟩
        rcases List.mem_cons.mp hpr with rfl | hm
        · exact absurd hpr1 (by simpa [List.isEmpty_iff] using h1)
        · exact ⟨pr, hm, hpr1⟩
      obtain ⟨s', hps, hp, hr, hu, ho⟩ := processInsts_stops score rest
        { s with prec_list := s.prec_list ++ [instPrec score reference gen],
                 rec_list := s.rec_list ++ [instRec score reference gen] }
        (fun pr hpr => hg pr (List.mem_cons_of_mem _ hpr)) hrest
      refine ⟨s', ?_, ?_, ?_, by simpa using hu, by simpa using ho⟩
      · simp only [processInsts, h1, hgen, Bool.false_eq_true, if_false, ite_false]
        exact hps
      · simp [List.takeWhile, h1, hp]
      · simp [List.takeWhile, h1, hr]

lemma buildReferences_flatten (dl : Dataloader) (ca : List Inst) :
    ((buildReferences dl ca).flatten : Multiset Sent) =
      Multiset.map (fun c => dl.trim_in_ids (c.drop 1)) (ca.flatten : Multiset Sent) := by
  rw [Multiset.map_coe]
  congr 1
  rw [List.map_flatten]
  rfl

lemma forward_ok (dl : Dataloader) (genNum : Nat) (score : Sent → Sent → ℚ)
    (s : MetricState) (ca mg : List Inst) (s' : MetricState)
    (h : forward dl genNum score s (.seq ca) (.seq mg) = .ok s') :
    s'.prec_list.length = s.prec_list.length + ca.length ∧
    s'.rec_list.length = s.rec_list.length + ca.length ∧
    s'.unorderedHash = s.unorderedHash +
      Multiset.map (fun c => dl.trim_in_ids (c.drop 1)) (ca.flatten : Multiset Sent) ∧
    s'.orderedHash = s.orderedHash := by
  rw [forward_seq] at h
  by_cases hb : (buildReferences dl ca).length ≠ (buildGens dl mg).length
  · simp [hb] at h
  · rw [if_neg hb] at h
    by_cases hc : ¬ ((buildGens dl mg).all (fun line => line.length = genNum))
    · simp only [if_pos hc] at h
      cases h
    · rw [if_neg hc] at h
      obtain ⟨hp, hr, hu, ho⟩ := processInsts_ok score _ _ s' h
      have hzip : ((buildReferences dl ca).zip (buildGens dl mg)).length = ca.length := by
        push_neg at hb
        have h1 : (buildReferences dl ca).length = ca.length := by simp [buildReferences]
        have h2 : (buildGens dl mg).length = ca.length := by rw [← hb]; exact h1
        rw [List.length_zip, h1, h2, inf_idem]
      rw [hzip] at hp hr
      refine ⟨hp, hr, ?_, by simpa using ho⟩
      rw [hu]
      simp [buildReferences_flatten]

lemma forward_extends (dl : Dataloader) (genNum : Nat) (score : Sent → Sent → ℚ)
    (s : MetricState) (c g : PyObj) :
    ∃ ps rs, ps.length = rs.length ∧
      (resState (forward dl genNum score s c g)).prec_list = s.prec_list ++ ps ∧
      (resState (forward dl genNum score s c g)).rec_list = s.rec_list ++ rs := by
  cases c with
  | other => exact ⟨[], [], rfl, by simp [forward, resState], by simp [forward, resState]⟩
  | seq ca =>
    cases g with
    | other => exact ⟨[], [], rfl, by simp [forward, resState], by simp [forward, resState]⟩
    | seq mg =>
      rw [forward_seq]
      by_cases hb : (buildReferences dl ca).length ≠ (buildGens dl mg).length
      · exact ⟨[], [], rfl, by simp [hb, resState], by simp [hb, resState]⟩
      · rw [if_neg hb]
        by_cases hc : ¬ ((buildGens dl mg).all (fun line => line.length = genNum))
        · exact ⟨[], [], rfl, by rw [if_pos hc]; simp [resState],
            by rw [if_pos hc]; simp [resState]⟩
        · rw [if_neg hc]
          obtain ⟨ps, rs, hlen, hp, hr, _, _⟩ := processInsts_extends score
            ((buildReferences dl ca).zip (buildGens dl mg))
            { s with unorderedHash :=
                s.unorderedHash + ((buildReferences dl ca).flatten : Multiset Sent) }
          exact ⟨ps, rs, hlen, by simpa using hp, by simpa using hr⟩

/-- The states an aggregator can be in after a sequence of `forward` calls
(successful or raising), starting from a fresh state, together with the total
number of instances whose contributions were successfully appended so far. -/
inductive ReachedWith (dl : Dataloader) (genNum : Nat) (score : Sent → Sent → ℚ)
    (cfg : List HashItem) : MetricState → Nat → Prop where
  | start : ReachedWith dl genNum score cfg (initState cfg) 0
  | step : ∀ {s n} (c g : PyObj), ReachedWith dl genNum score cfg s n →
      ReachedWith dl genNum score cfg (resState (forward dl genNum score s c g))
        (n + ((resState (forward dl genNum score s c g)).prec_list.length
              - s.prec_list.length))

lemma reached_inv (dl : Dataloader) (genNum : Nat) (score : Sent → Sent → ℚ)
    (cfg : List HashItem) :
    ∀ s n, ReachedWith dl genNum score cfg s n →
      s.prec_list.length = n ∧ s.rec_list.length = n := by
  intro s n h
  induction h with
  | start => simp [initState]
  | @step s n c g _prev ih =>
    obtain ⟨ps, rs, hlen, hp, hr⟩ := forward_extends dl genNum score s c g
    rw [hp, hr]
    simp only [List.length_append]
    omega

/-- C3.  `close` fails with the not-ready error exactly when no instance has
ever been successfully forwarded (first conjunct, over every state reachable
by a sequence of `forward` calls); otherwise it returns the arithmetic means
of the two running lists and the fingerprint, keyed with the strategy prefix
(second conjunct); after two successful single-instance batches the reported
values are the unweighted means of the two per-instance contributions (third
conjunct). -/
theorem spec_C3 (dl : Dataloader) (genNum : Nat) (score : Sent → Sent → ℚ)
    (cfg : List HashItem) (pfx : String) :
    (∀ s n, ReachedWith dl genNum score cfg s n →
      ((close pfx s).isOk = false ↔ n = 0)) ∧
    (∀ s : MetricState, s.prec_list ≠ [] → s.rec_list ≠ [] →
      close pfx s = .ok ({ precKey := pfx ++ " precision",
                           precVal := npAverage s.prec_list,
                           recKey := pfx ++ " recall",
                           recVal := npAverage s.rec_list,
                           hashKey := pfx ++ " hashvalue",
                           hashVal := hashvalue s }, s)) ∧
    (∀ c1 g1 c2 g2 s1 s2 p1 r1 p2 r2,
      forward dl genNum score (initState cfg) c1 g1 = .ok s1 →
      s1.prec_list = [p1] → s1.rec_list = [r1] →
      forward dl genNum score s1 c2 g2 = .ok s2 →
      s2.prec_list = [p1, p2] → s2.rec_list = [r1, r2] →
      ∃ res, close pfx s2 = .ok (res, s2) ∧
        res.precVal = (p1 + p2) / 2 ∧ res.recVal = (r1 + r2) / 2) := by
  refine ⟨?_, ?_, ?_⟩
  · intro s n h
    obtain ⟨hp, hr⟩ := reached_inv dl genNum score cfg s n h
    constructor
    · intro hclose
      by_contra hn
      have hp' : s.prec_list ≠ [] := by
        intro he
        rw [he] at hp
        simp at hp
        omega
      have hr' : s.rec_list ≠ [] := by
        intro he
        rw [he] at hr
        simp at hr
        omega
      rw [close, if_neg (by push_neg; exact ⟨hp', hr'⟩)] at hclose
      simp [Except.isOk, Except.toBool] at hclose
    · intro hn
      subst hn
      have hp' : s.prec_list = [] := List.length_eq_zero.mp hp
      rw [close, if_pos (Or.inl hp')]
      simp [Except.isOk, Except.toBool]
  · intro s h1 h2
    rw [close, if_neg (by push_neg; exact ⟨h1, h2⟩)]
  · intro c1 g1 c2 g2 s1 s2 p1 r1 p2 r2 _hf1 _hp1 _hr1 _hf2 hp2 hr2
    have h1 : s2.prec_list ≠ [] := by rw [hp2]; simp
    have h2 : s2.rec_list ≠ [] := by rw [hr2]; simp
    refine ⟨_, by rw [close, if_neg (by push_neg; exact ⟨h1, h2⟩)], ?_, ?_⟩
    · show npAverage s2.prec_list = (p1 + p2) / 2
      rw [hp2, npAverage]
      norm_num
    · show npAverage s2.rec_list = (r1 + r2) / 2
      rw [hr2, npAverage]
      norm_num

/-- C4.  Whenever one of the two input collections has an unacceptable type,
the two batch lengths differ, or some instance's candidate count differs from
`generated_num_per_context`, `forward` raises before any scoring and the
error carries exactly the state it was called with (no mutation of the
running lists or the hash accumulator). -/
theorem spec_C4 (dl : Dataloader) (genNum : Nat) (score : Sent → Sent → ℚ)
    (s : MetricState) (cand mg : PyObj)
    (h : cand = PyObj.other ∨ mg = PyObj.other ∨
      ∃ ca mgl, cand = PyObj.seq ca ∧ mg = PyObj.seq mgl ∧
        (ca.length ≠ mgl.length ∨ ∃ line ∈ mgl, line.length ≠ genNum)) :
    ∃ e, forward dl genNum score s cand mg = .error (e, s) := by
  rcases h with rfl | rfl | ⟨ca, mgl, rfl, rfl, hbad⟩
  · exact ⟨.typeErr, by cases mg <;> rfl⟩
  · cases cand <;> exact ⟨.typeErr, rfl⟩
  · rw [forward_seq]
    rcases hbad with hlen | ⟨line, hline, hcount⟩
    · refine ⟨.batchNumErr, ?_⟩
      rw [if_pos ?_]
      simp only [buildReferences, buildGens, List.length_map]
      exact hlen
    · by_cases hlen : (buildReferences dl ca).length ≠ (buildGens dl mgl).length
      · exact ⟨.batchNumErr, by rw [if_pos hlen]⟩
      · refine ⟨.genNumErr, ?_⟩
        rw [if_neg hlen, if_pos ?_]
        simp only [List.all_eq_true, not_forall]
        refine ⟨line.map dl.trim_in_ids, ?_, ?_⟩
        · simp only [buildGens, List.mem_map]
          exact ⟨line, hline, rfl⟩
        · simp [hcount]

/-- C10.  A batch that passes every validation but contains an instance with
zero reference sentences makes `forward` raise (the zero-size reduction in
`np.max(matrix, 0)`), and by that point the whole batch's references have
already been folded into the hash accumulator and the contributions of the
instances preceding the first empty one have already been appended: the
aggregator is left partially mutated. -/
theorem spec_C10 (dl : Dataloader) (genNum : Nat) (score : Sent → Sent → ℚ)
    (s : MetricState) (ca mgl : List Inst)
    (hlen : ca.length = mgl.length)
    (hcount : ∀ line ∈ mgl, line.length = genNum)
    (hpos : 0 < genNum)
    (hemp : ∃ inst ∈ ca, inst = []) :
    ∃ s', forward dl genNum score s (.seq ca) (.seq mgl) = .error (.emptyReduce, s') ∧
      s'.unorderedHash = s.unorderedHash +
        Multiset.map (fun c => dl.trim_in_ids (c.drop 1)) (ca.flatten : Multiset Sent) ∧
      s'.orderedHash = s.orderedHash ∧
      s'.prec_list = s.prec_list ++
        ((((buildReferences dl ca).zip (buildGens dl mgl)).takeWhile
            (fun pr => !pr.1.isEmpty)).map (fun pr => instPrec score pr.1 pr.2)) ∧
      s'.rec_list = s.rec_list ++
        ((((buildReferences dl ca).zip (buildGens dl mgl)).takeWhile
            (fun pr => !pr.1.isEmpty)).map (fun pr => instRec score pr.1 pr.2)) := by
  have hrlen : (buildReferences dl ca).length = ca.length := by simp [buildReferences]
  have hglen : (buildGens dl mgl).length = mgl.length := by simp [buildGens]
  have hzlen : ((buildReferences dl ca).zip (buildGens dl mgl)).length = ca.length := by
    rw [List.length_zip, hrlen, hglen, ← hlen, inf_idem]
  have hg : ∀ pr ∈ (buildReferences dl ca).zip (buildGens dl mgl), pr.2 ≠ [] := by
    intro pr hpr
    obtain ⟨j, hj, hget⟩ := List.mem_iff_getElem.mp hpr
    have hj2 : j < (buildGens dl mgl).length := by
      rw [List.length_zip] at hj
      exact lt_of_lt_of_le hj inf_le_right
    have hj3 : j < mgl.length := by rwa [hglen] at hj2
    have hpr2 : pr.2 = (buildGens dl mgl)[j] := by rw [← hget, List.getElem_zip]
    have hmap : (buildGens dl mgl)[j] = (mgl[j]).map dl.trim_in_ids := by
      simp [buildGens]
    rw [hpr2, hmap]
    simp only [ne_eq, List.map_eq_nil_iff]
    intro hnil
    have h0 := hcount mgl[j] (List.getElem_mem hj3)
    rw [hnil] at h0
    simp at h0
    omega
  have he : ∃ pr ∈ (buildReferences dl ca).zip (buildGens dl mgl), pr.1 = [] := by
    obtain ⟨inst, hmem, hinst⟩ := hemp
    obtain ⟨i, hi, hget⟩ := List.mem_iff_getElem.mp hmem
    have hiz : i < ((buildReferences dl ca).zip (buildGens dl mgl)).length := by
      rwa [hzlen]
    refine ⟨((buildReferences dl ca).zip (buildGens dl mgl))[i], List.getElem_mem hiz, ?_⟩
    have hir : i < (buildReferences dl ca).length := by rw [hrlen]; exact hi
    rw [List.getElem_zip]
    show (buildReferences dl ca)[i] = []
    have hmap : (buildReferences dl ca)[i] =
        (ca[i]).map (fun cand => dl.trim_in_ids (cand.drop 1)) := by
      simp [buildReferences]
    rw [hmap, hget, hinst]
    rfl
  obtain ⟨s', hps, hp, hr, hu, ho⟩ := processInsts_stops score
    ((buildReferences dl ca).zip (buildGens dl mgl))
    { s with unorderedHash :=
        s.unorderedHash + ((buildReferences dl ca).flatten : Multiset Sent) } hg he
  refine ⟨s', ?_, ?_, by simpa using ho, by simpa using hp, by simpa using hr⟩
  · rw [forward_seq, if_neg (by rw [hrlen, hglen, hlen]; simp), if_neg ?_, hps]
    simp only [List.all_eq_true, not_not]
    intro line hline
    simp only [buildGens, List.mem_map] at hline
    obtain ⟨l0, hl0, rfl⟩ := hline
    simp [hcount l0 hl0]
  · rw [hu]
    simp [buildReferences_flatten]

/-! ### Concrete instances for witnesses -/

/-- Modelled from the spec: `trim_in_ids` lives in the dataloader base class
(not under `src/`); per the spec it "strips control/padding tokens".  Using
the special ids of the dataloader examples (`<pad>` = 0, `<eos>` = 3): cut at
the end token and drop padding tokens. -/
def specTrimInIds (l : Sent) : Sent :=
  (l.takeWhile (fun t => t ≠ 3)).filter (fun t => t ≠ 0)

/-- A concrete collaborator for concrete runs: unknown id 1, tokens rendered
as `w<id>`. -/
def dlC : Dataloader :=
  { trim_in_ids := specTrimInIds, unk_id := 1,
    convert_ids_to_tokens := fun l => l.map (fun i => "w" ++ toString i) }

/-- A concrete scoring strategy for exercising the aggregator (which is
generic in the strategy, as the source is through dynamic dispatch). -/
def scC : Sent → Sent → ℚ := fun _ _ => 1 / 2

/-- The aggregator state after one single-instance batch of `stCbatches`. -/
def stC1 : MetricState :=
  { prec_list := [1 / 2], rec_list := [1 / 2], unorderedHash := {[5]},
    orderedHash := [HashItem.int 1, HashItem.int 1] }

/-- The aggregator state after two single-instance batches. -/
def stC2 : MetricState :=
  { prec_list := [1 / 2, 1 / 2], rec_list := [1 / 2, 1 / 2],
    unorderedHash := {[5], [8]}, orderedHash := [HashItem.int 1, HashItem.int 1] }

theorem spec_C1_witness :
    (([[4], [5]] : Inst) ≠ []) ∧ (([[4]] : Inst) ≠ []) ∧
    instPrec scC [[4], [5]] [[4]] =
      (∑ j ∈ Finset.range ([[4]] : Inst).length,
        (Finset.range ([[4], [5]] : Inst).length).sup'
          (Finset.nonempty_range_iff.mpr (by decide))
          (fun i => scC (([[4]] : Inst).getD j []) (([[4], [5]] : Inst).getD i []))) /
        ((([[4]] : Inst).length : ℚ)) :=
  ⟨by decide, by decide, (spec_C1 scC [[4], [5]] [[4]] (by decide) (by decide)).1⟩

theorem spec_C3_witness :
    (close "BLEU-1" (initState [HashItem.int 1, HashItem.int 1])).isOk = false ∧
    (∃ res, close "BLEU-1" stC2 = .ok (res, stC2) ∧
      res.precVal = (1 / 2 + 1 / 2) / 2 ∧ res.recVal = (1 / 2 + 1 / 2) / 2) := by
  constructor
  · exact ((spec_C3 dlC 1 scC [HashItem.int 1, HashItem.int 1] "BLEU-1").1 _ 0
      ReachedWith.start).mpr rfl
  · refine (spec_C3 dlC 1 scC [HashItem.int 1, HashItem.int 1] "BLEU-1").2.2
      (.seq [[[4, 5]]]) (.seq [[[6, 3]]]) (.seq [[[7, 8]]]) (.seq [[[9, 3]]])
      stC1 stC2 (1 / 2) (1 / 2) (1 / 2) (1 / 2) ?_ rfl rfl ?_ rfl rfl
    · show forward dlC 1 scC (initState [HashItem.int 1, HashItem.int 1])
        (.seq [[[4, 5]]]) (.seq [[[6, 3]]]) = .ok stC1
      simp [forward, buildReferences, buildGens, processInsts, instPrec, instRec,
        scoreMatrix, colMax, listMax, dlC, scC, specTrimInIds, initState, stC1]
    · show forward dlC 1 scC stC1 (.seq [[[7, 8]]]) (.seq [[[9, 3]]]) = .ok stC2
      simp [forward, buildReferences, buildGens, processInsts, instPrec, instRec,
        scoreMatrix, colMax, listMax, dlC, scC, specTrimInIds, stC1, stC2]

theorem spec_C4_witness :
    ∃ e, forward dlC 1 scC (initState []) (.seq [[[4]]]) (.seq []) =
      .error (e, initState []) :=
  spec_C4 dlC 1 scC (initState []) _ _
    (Or.inr (Or.inr ⟨[[[4]]], [], rfl, rfl, Or.inl (by decide)⟩))

theorem spec_C10_witness :
    ∃ s', forward dlC 1 scC (initState []) (.seq [[[4]], []]) (.seq [[[6]], [[7]]]) =
        .error (.emptyReduce, s') ∧
      s'.unorderedHash = (initState []).unorderedHash +
        Multiset.map (fun c => dlC.trim_in_ids (c.drop 1))
          ((([[[4]], []] : List Inst).flatten : Multiset Sent)) ∧
      s'.orderedHash = (initState []).orderedHash ∧
      s'.prec_list = (initState []).prec_list ++
        ((((buildReferences dlC [[[4]], []]).zip (buildGens dlC [[[6]], [[7]]])).takeWhile
            (fun pr => !pr.1.isEmpty)).map (fun pr => instPrec scC pr.1 pr.2)) ∧
      s'.rec_list = (initState []).rec_list ++
        ((((buildReferences dlC [[[4]], []]).zip (buildGens dlC [[[6]], [[7]]])).takeWhile
            (fun pr => !pr.1.isEmpty)).map (fun pr => instRec scC pr.1 pr.2)) :=
  spec_C10 dlC 1 scC (initState []) [[[4]], []] [[[6]], [[7]]]
    (by decide) (by decide) (by decide) ⟨[], by decide, rfl⟩

/-! ### The fingerprint -/

lemma runAll_ok_hash (dl : Dataloader) (genNum : Nat) (score : Sent → Sent → ℚ) :
    ∀ (bs : List (PyObj × PyObj)) (s s' : MetricState),
    runAll dl genNum score s bs = some s' →
    s'.orderedHash = s.orderedHash ∧
    s'.unorderedHash = s.unorderedHash +
      Multiset.map (fun c => dl.trim_in_ids (c.drop 1)) (rawRefs bs)
  | [], s, s', h => by
    simp only [runAll, Option.some.injEq] at h
    subst h
    simp [rawRefs]
  | (c, g) :: rest, s, s', h => by
    simp only [runAll] at h
    cases hf : forward dl genNum score s c g with
    | error e => rw [hf] at h; cases h
    | ok s1 =>
      rw [hf] at h
      obtain ⟨ho, hu⟩ := runAll_ok_hash dl genNum score rest s1 s' h
      cases c with
      | other => cases g <;> simp [forward] at hf
      | seq ca =>
        cases g with
        | other => simp [forward] at hf
        | seq mg =>
          obtain ⟨_, _, hu1, ho1⟩ := forward_ok dl genNum score s ca mg s1 hf
          refine ⟨by rw [ho, ho1], ?_⟩
          rw [hu, hu1]
          show _ = s.unorderedHash +
            Multiset.map _ ((ca.flatten : Multiset Sent) + rawRefs rest)
          rw [Multiset.map_add, add_assoc]

lemma hashPair_inj : Function.Injective (fun p : String × List ℚ => HashItem.pair p.1 p.2) := by
  intro p q h
  cases p
  cases q
  simp only [HashItem.pair.injEq] at h
  simp [h.1, h.2]

lemma embInit_ok (w2v : Word2Vec) (mode : String) (genNum : Nat)
    (st : MetricState) (pfxv : String)
    (h : embInit w2v mode genNum = .ok (st, pfxv)) :
    st = initState ([HashItem.str mode, HashItem.int genNum] ++
      w2v.map (fun p => HashItem.pair p.1 p.2)) ∧ pfxv = mode ++ "-bow" := by
  rw [embInit] at h
  by_cases h1 : ¬ word2vecCheck w2v = true
  · rw [if_pos h1] at h
    cases h
  · rw [if_neg h1] at h
    by_cases h2 : ¬ (mode = "avg" ∨ mode = "extrema")
    · rw [if_pos h2] at h
      cases h
    · rw [if_neg h2] at h
      simp only [Except.ok.injEq, Prod.mk.injEq] at h
      exact ⟨h.1.symm, h.2.symm⟩

/-- C5.  First conjunct: two runs with the same configuration whose batches
carry the same multiset of raw reference sentences — however they are split,
ordered, and whatever the candidate sentences are — end with the same
fingerprint.  Second and third conjuncts: two runs whose configurations
differ in any parameter (BLEU: `ngram` or `generated_num_per_context`;
embedding strategy: `mode`, `generated_num_per_context` or the embedding
table) end with different fingerprints. -/
theorem spec_C5 (dl : Dataloader) :
    (∀ (genNum : Nat) (score : Sent → Sent → ℚ) (cfg : List HashItem)
        (bs1 bs2 : List (PyObj × PyObj)) (s1 s2 : MetricState),
      runAll dl genNum score (initState cfg) bs1 = some s1 →
      runAll dl genNum score (initState cfg) bs2 = some s2 →
      rawRefs bs1 = rawRefs bs2 →
      hashvalue s1 = hashvalue s2) ∧
    (∀ (n1 g1 n2 g2 : Nat) (score1 score2 : Sent → Sent → ℚ)
        (bs1 bs2 : List (PyObj × PyObj)) (s1 s2 : MetricState),
      (n1, g1) ≠ (n2, g2) →
      runAll dl g1 score1 (bleuInitState n1 g1) bs1 = some s1 →
      runAll dl g2 score2 (bleuInitState n2 g2) bs2 = some s2 →
      hashvalue s1 ≠ hashvalue s2) ∧
    (∀ (w1 w2 : Word2Vec) (m1 m2 : String) (g1 g2 : Nat) (st1 st2 : MetricState)
        (p1 p2 : String) (score1 score2 : Sent → Sent → ℚ)
        (bs1 bs2 : List (PyObj × PyObj)) (s1 s2 : MetricState),
      (m1, g1, w1) ≠ (m2, g2, w2) →
      embInit w1 m1 g1 = .ok (st1, p1) →
      embInit w2 m2 g2 = .ok (st2, p2) →
      runAll dl g1 score1 st1 bs1 = some s1 →
      runAll dl g2 score2 st2 bs2 = some s2 →
      hashvalue s1 ≠ hashvalue s2) := by
  refine ⟨?_, ?_, ?_⟩
  · intro genNum score cfg bs1 bs2 s1 s2 h1 h2 hraw
    obtain ⟨ho1, hu1⟩ := runAll_ok_hash dl genNum score bs1 (initState cfg) s1 h1
    obtain ⟨ho2, hu2⟩ := runAll_ok_hash dl genNum score bs2 (initState cfg) s2 h2
    rw [hashvalue, hashvalue, ho1, ho2, hu1, hu2, hraw]
  · intro n1 g1 n2 g2 score1 score2 bs1 bs2 s1 s2 hne h1 h2
    obtain ⟨ho1, _⟩ := runAll_ok_hash dl g1 score1 bs1 (bleuInitState n1 g1) s1 h1
    obtain ⟨ho2, _⟩ := runAll_ok_hash dl g2 score2 bs2 (bleuInitState n2 g2) s2 h2
    intro heq
    have hord : s1.orderedHash = s2.orderedHash := congrArg Prod.fst heq
    rw [ho1, ho2] at hord
    simp only [bleuInitState, initState, List.cons.injEq, HashItem.int.injEq,
      Nat.cast_inj, and_true] at hord
    exact hne (by simp [hord.1, hord.2])
  · intro w1 w2 m1 m2 g1 g2 st1 st2 p1 p2 score1 score2 bs1 bs2 s1 s2 hne hi1 hi2 h1 h2
    obtain ⟨hst1, _⟩ := embInit_ok w1 m1 g1 st1 p1 hi1
    obtain ⟨hst2, _⟩ := embInit_ok w2 m2 g2 st2 p2 hi2
    obtain ⟨ho1, _⟩ := runAll_ok_hash dl g1 score1 bs1 st1 s1 h1
    obtain ⟨ho2, _⟩ := runAll_ok_hash dl g2 score2 bs2 st2 s2 h2
    intro heq
    have hord : s1.orderedHash = s2.orderedHash := congrArg Prod.fst heq
    rw [ho1, ho2, hst1, hst2] at hord
    simp only [initState, List.cons_append, List.nil_append, List.cons.injEq,
      HashItem.str.injEq, HashItem.int.injEq, Nat.cast_inj] at hord
    have hw : w1 = w2 := List.map_injective_iff.mpr hashPair_inj hord.2.2
    exact hne (by simp [hord.1, hord.2.1, hw])

theorem spec_C5_witness :
    hashvalue stC2 = hashvalue stC2 ∧
    hashvalue (bleuInitState 1 1) ≠ hashvalue (bleuInitState 2 1) ∧
    hashvalue (initState [HashItem.str "avg", HashItem.int 1, HashItem.pair "a" [1]]) ≠
      hashvalue (initState [HashItem.str "avg", HashItem.int 1]) := by
  refine ⟨?_, ?_, ?_⟩
  · refine (spec_C5 dlC).1 1 scC [HashItem.int 1, HashItem.int 1]
      [(.seq [[[4, 5]]], .seq [[[6, 3]]]), (.seq [[[7, 8]]], .seq [[[9, 3]]])]
      [(.seq [[[7, 8]]], .seq [[[9, 3]]]), (.seq [[[4, 5]]], .seq [[[6, 3]]])]
      stC2 stC2 ?_ ?_ (by decide)
    · simp [runAll, forward, buildReferences, buildGens, processInsts, instPrec, instRec,
        scoreMatrix, colMax, listMax, dlC, scC, specTrimInIds, initState, stC2]
    · simp [runAll, forward, buildReferences, buildGens, processInsts, instPrec, instRec,
        scoreMatrix, colMax, listMax, dlC, scC, specTrimInIds, initState, stC2]
      decide
  · exact (spec_C5 dlC).2.1 1 1 2 1 scC scC [] [] (bleuInitState 1 1) (bleuInitState 2 1)
      (by decide) rfl rfl
  · exact (spec_C5 dlC).2.2 [("a", [1])] [] "avg" "avg" 1 1
      (initState [HashItem.str "avg", HashItem.int 1, HashItem.pair "a" [1]])
      (initState [HashItem.str "avg", HashItem.int 1]) ("avg-bow") ("avg-bow")
      scC scC [] []
      (initState [HashItem.str "avg", HashItem.int 1, HashItem.pair "a" [1]])
      (initState [HashItem.str "avg", HashItem.int 1])
      (by decide) rfl rfl rfl rfl

/-! ### Unknown-token handling of the BLEU strategy -/

lemma mem_of_mem_ngrams (n : Nat) (l w : Sent) (hw : w ∈ ngrams n l) :
    ∀ x ∈ w, x ∈ l := by
  simp only [ngrams, List.mem_map, List.mem_range] at hw
  obtain ⟨i, _, rfl⟩ := hw
  intro x hx
  exact List.mem_of_mem_drop (List.mem_of_mem_take hx)

/-- C8.  In `BleuPrecisionRecallMetric._score`, every candidate position
holding the unknown id is replaced by the sentinel `-1` before scoring
(first conjunct) and the other positions are untouched (second conjunct);
`-1` equals no non-negative token id (third conjunct), so an n-gram of the
replaced candidate containing the sentinel matches no n-gram of a reference
made of non-negative ids — including reference unknown tokens (fourth
conjunct); the reference itself is passed to the scoring primitive unchanged
(fifth conjunct). -/
theorem spec_C8 (dl : Dataloader) (prim : List Sent → Sent → List ℚ → ℚ)
    (ngram : Nat) (gen reference : Sent) (_hunk : 0 ≤ dl.unk_id)
    (href : ∀ t ∈ reference, 0 ≤ t) :
    (∀ i, i < gen.length → gen.getD i 0 = dl.unk_id →
      (replace_unk dl.unk_id (-1) gen).getD i 0 = -1) ∧
    (∀ i, i < gen.length → gen.getD i 0 ≠ dl.unk_id →
      (replace_unk dl.unk_id (-1) gen).getD i 0 = gen.getD i 0) ∧
    (∀ t ∈ reference, (-1 : Int) ≠ t) ∧
    (∀ n w, w ∈ ngrams n (replace_unk dl.unk_id (-1) gen) → (-1 : Int) ∈ w →
      w ∉ ngrams n reference) ∧
    bleuScoreWith prim dl ngram gen reference =
      prim [reference] (replace_unk dl.unk_id (-1) gen) (bleuWeights ngram) := by
  refine ⟨?_, ?_, ?_, ?_, rfl⟩
  · intro i hi hieq
    have h' : i < (replace_unk dl.unk_id (-1) gen).length := by
      simpa [replace_unk] using hi
    rw [List.getD_eq_getElem _ _ h']
    show (gen.map _)[i] = -1
    rw [List.getD_eq_getElem _ _ hi] at hieq
    rw [List.getElem_map, hieq]
    simp
  · intro i hi hine
    have h' : i < (replace_unk dl.unk_id (-1) gen).length := by
      simpa [replace_unk] using hi
    rw [List.getD_eq_getElem _ _ h', List.getD_eq_getElem _ _ hi]
    show (gen.map _)[i] = gen[i]
    rw [List.getD_eq_getElem _ _ hi] at hine
    rw [List.getElem_map, if_neg hine]
  · intro t ht heq
    have := href t ht
    omega
  · intro n w hw hneg hwr
    have hmem : (-1 : Int) ∈ reference := mem_of_mem_ngrams n reference w hwr _ hneg
    have := href _ hmem
    omega

theorem spec_C8_witness :
    (0 ≤ dlC.unk_id) ∧ (∀ t ∈ ([4, 5] : Sent), 0 ≤ t) ∧
    (replace_unk dlC.unk_id (-1) [1, 4]).getD 0 0 = -1 ∧
    (∀ w, w ∈ ngrams 2 (replace_unk dlC.unk_id (-1) [1, 4]) → (-1 : Int) ∈ w →
      w ∉ ngrams 2 ([4, 5] : Sent)) :=
  ⟨by decide, by decide,
    (spec_C8 dlC (fun _ _ _ => 0) 2 [1, 4] [4, 5] (by decide) (by decide)).1 0
      (by decide) (by decide),
    (spec_C8 dlC (fun _ _ _ => 0) 2 [1, 4] [4, 5] (by decide) (by decide)).2.2.2.1 2⟩

/-! ### The embedding-similarity score -/

lemma dotQ_comm (u v : List ℚ) : dotQ u v = dotQ v u := by
  rw [dotQ, dotQ, List.zipWith_comm_of_comm _ mul_comm]

/-- C9.  The embedding-similarity pairwise score is symmetric in its two
sentence arguments, for either pooling mode (including the degenerate
no-usable-vector and zero-norm cases). -/
theorem spec_C9 (dl : Dataloader) (w2v : Word2Vec) (mode : String) (a b : Sent) :
    embScore dl w2v mode a b = embScore dl w2v mode b a := by
  simp only [embScore]
  by_cases ha : sentVecs dl w2v a = [] <;> by_cases hb : sentVecs dl w2v b = [] <;>
    simp [ha, hb, dotQ_comm, mul_comm]

/-! ### The first-token drop in reference construction -/

/-- C2 (failing input).  For the batch whose single instance has the single
reference `[4, 5]` — plain token ids, no leading or trailing special tokens,
so `trim_in_ids` keeps it intact — `forward` scores and hashes `[5]`, not
`trim_in_ids([4, 5]) = [4, 5]`: the `cand[1:]` slice in the source drops the
first reference token even though the documented input carries no start
token.  The resulting state (for any scoring strategy `sc`) records `[5]` in
the hash accumulator, and the matrix cell that was computed is
`sc([6], [5])`. -/
theorem spec_C2_bug :
    dlC.trim_in_ids [4, 5] = [4, 5] ∧
    buildReferences dlC [[[4, 5]]] = [[[5]]] ∧
    (∀ sc : Sent → Sent → ℚ,
      forward dlC 1 sc (initState []) (.seq [[[4, 5]]]) (.seq [[[6, 3]]]) =
        .ok { prec_list := [sc [6] [5]], rec_list := [sc [6] [5]],
              unorderedHash := {[5]}, orderedHash := [] }) := by
  refine ⟨by decide, by decide, ?_⟩
  intro sc
  simp [forward, buildReferences, buildGens, processInsts, instPrec, instRec,
    scoreMatrix, colMax, listMax, dlC, specTrimInIds, initState]

/-! ### The zero-norm cosine case of the embedding strategy -/

/-- A concrete collaborator whose id-to-token conversion hits the concrete
embedding table `w2vC`. -/
def dlE : Dataloader :=
  { trim_in_ids := specTrimInIds, unk_id := 1,
    convert_ids_to_tokens := fun l =>
      l.map (fun i => if i = 1 then "a" else if i = 2 then "b" else "c") }

/-- A concrete embedding table that passes the constructor validation and
whose vectors can average to the zero vector. -/
def w2vC : Word2Vec := [("a", [1]), ("b", [-1])]

/-- C7 (failing input).  `w2vC` passes the constructor's shape validation
(first conjunct); the sentence `[1, 2]` collects the two usable vectors
`[1]` and `[-1]` (second conjunct) whose average pool is the zero vector
(third conjunct); the reference `[1]` also has a usable vector (fourth
conjunct), so neither sentence takes the defined-as-zero branch — and the
score is the float division `0 / 0`, a `NaN` (modelled as `none`), not a
value in `[0, 1]` (fifth conjunct). -/
theorem spec_C7_bug :
    word2vecCheck w2vC = true ∧
    sentVecs dlE w2vC [1, 2] = [[1], [-1]] ∧
    pool "avg" (sentVecs dlE w2vC [1, 2]) = [0] ∧
    sentVecs dlE w2vC [1] = [[1]] ∧
    embScore dlE w2vC "avg" [1, 2] [1] = none := by
  refine ⟨by decide, by decide, ?_, by decide, ?_⟩
  · show pool "avg" (sentVecs dlE w2vC [1, 2]) = [0]
    have h2 : sentVecs dlE w2vC [1, 2] = [[1], [-1]] := by decide
    rw [h2, pool, if_pos rfl, avgPool]
    norm_num [vecZip]
  · have h2 : sentVecs dlE w2vC [1, 2] = [[1], [-1]] := by decide
    have h1 : sentVecs dlE w2vC [1] = [[1]] := by decide
    rw [embScore]
    simp only [h1, h2]
    rw [if_neg (by simp)]
    rw [if_pos ?_]
    have hp : pool "avg" [[1], [-1]] = [(0 : ℚ)] := by
      rw [pool, if_pos rfl, avgPool]
      norm_num [vecZip]
    rw [hp, dotQ]
    norm_num

/-! ### A second `close` call -/

/-- C6 (counterexample).  A state holding one forwarded instance — reachable
by a single successful `forward` from a fresh BLEU-1 aggregator (first
conjunct) — lets `close` produce a result, and calling `close` again on the
state the first call left behind succeeds again instead of failing: the
source never clears `prec_list`/`rec_list`, so the not-ready branch cannot
trigger a second time. -/
theorem spec_C6_counterexample :
    forward dlC 1 scC (initState [HashItem.int 1, HashItem.int 1])
      (.seq [[[4, 5]]]) (.seq [[[6, 3]]]) = .ok stC1 ∧
    ∃ res s', close "BLEU-1" stC1 = .ok (res, s') ∧ (close "BLEU-1" s').isOk = true := by
  constructor
  · simp [forward, buildReferences, buildGens, processInsts, instPrec, instRec,
      scoreMatrix, colMax, listMax, dlC, scC, specTrimInIds, initState, stC1]
  · refine ⟨_, stC1, by rw [close, if_neg (by decide)], ?_⟩
    rw [close, if_neg (by decide)]
    rfl

/-- C6 (amended).  After `close` has produced a result, calling `close` again
without forwarding new data succeeds and returns the same result: `close`
reads the accumulator non-destructively. -/
theorem spec_C6 (pfx : String) (s : MetricState) (res : CloseRes) (s' : MetricState)
    (h : close pfx s = .ok (res, s')) :
    close pfx s' = .ok (res, s') := by
  rw [close] at h
  by_cases hc : s.prec_list = [] ∨ s.rec_list = []
  · rw [if_pos hc] at h
    cases h
  · rw [if_neg hc] at h
    simp only [Except.ok.injEq, Prod.mk.injEq] at h
    obtain ⟨hres, hs⟩ := h
    subst hs
    rw [close, if_neg hc, hres]

theorem spec_C6_witness :
    close "BLEU-1" stC1 =
      .ok ({ precKey := "BLEU-1 precision", precVal := npAverage [1 / 2],
             recKey := "BLEU-1 recall", recVal := npAverage [1 / 2],
             hashKey := "BLEU-1 hashvalue", hashVal := hashvalue stC1 }, stC1) ∧
    close "BLEU-1" stC1 =
      .ok ({ precKey := "BLEU-1 precision", precVal := npAverage [1 / 2],
             recKey := "BLEU-1 recall", recVal := npAverage [1 / 2],
             hashKey := "BLEU-1 hashvalue", hashVal := hashvalue stC1 }, stC1) := by
  have h : close "BLEU-1" stC1 =
      .ok ({ precKey := "BLEU-1 precision", precVal := npAverage [1 / 2],
             recKey := "BLEU-1 recall", recVal := npAverage [1 / 2],
             hashKey := "BLEU-1 hashvalue", hashVal := hashvalue stC1 }, stC1) := by
    rw [close, if_neg (by decide)]
    rfl
  exact ⟨h, spec_C6 "BLEU-1" stC1 _ stC1 h⟩
